import Mathlib

/-!
Verification development for the static performance-analysis toolkit of this
repository: `performance-analyzer.js` (PerformanceAnalyzer), the bundle
analyzer (BundleAnalyzer) and the orchestrating runner
(PerformanceAnalysisRunner) with its CLI entry point.

The JavaScript code is shallowly embedded: each JS method becomes a Lean
function over explicit inputs.  File systems are finite trees; a `readdirSync`
call on an unreadable directory is an `Except.error`, mirroring the thrown
exception.  JS numbers that only ever hold integers are `Nat`/`Int`.
Report/console printing and file writing are not modelled (they do not affect
any analysed value).  The floating-point `sizeKB` display field
(`Math.round(size/1024*100)/100`) is dropped from file records: no analysed
condition reads it back.
-/

/-! ## String primitives (JS `String.prototype.includes`, `startsWith`, …) -/

/-- Prefix test on character lists. -/
def listIsPrefixOf : List Char → List Char → Bool
  | [], _ => true
  | _ :: _, [] => false
  | a :: as, b :: bs => a == b && listIsPrefixOf as bs

/-- Substring test on character lists: does `hay` contain `needle` contiguously? -/
def listContainsSeg (needle : List Char) : List Char → Bool
  | [] => listIsPrefixOf needle []
  | b :: bs => listIsPrefixOf needle (b :: bs) || listContainsSeg needle bs

/-- JS `hay.includes(pat)`. -/
def strContains (hay pat : String) : Bool :=
  listContainsSeg pat.data hay.data

/-- JS `s.startsWith(pre)`. -/
def strStartsWith (s pre : String) : Bool :=
  listIsPrefixOf pre.data s.data

/-- JS `s.endsWith(suffix)`. -/
def strEndsWith (s suffix : String) : Bool :=
  listIsPrefixOf suffix.data.reverse s.data.reverse

/-- Node `path.basename`: the part of a path after the last `/`. -/
def basenameStr (s : String) : String :=
  ⟨(s.data.reverse.takeWhile (fun c => c != '/')).reverse⟩

/-- Extension of a bare file name, Node `path.extname` semantics: from the last
dot, provided that dot is not the first character; otherwise empty. -/
def extOfBase (b : List Char) : List Char :=
  let pre := b.reverse.takeWhile (fun c => c != '.')
  if pre.length + 1 < b.length then '.' :: pre.reverse else []

/-- Node `path.extname` on a possibly slash-separated path. -/
def extnameStr (s : String) : String :=
  ⟨extOfBase (basenameStr s).data⟩

/-- Lookup in a JS-object-as-association-list (`obj[key]`). -/
def assocLookup (l : List (String × String)) (k : String) : Option String :=
  (l.find? (fun kv => kv.1 == k)).map Prod.snd

/-- JS truthiness of an optional string property: present and non-empty. -/
def truthyStr (o : Option String) : Bool :=
  match o with
  | some v => v != ""
  | none => false

/-- `Math.round(a / b)` for positive integers (round half up, exact in the
source because `b` is a power of two there). -/
def roundDiv (a b : Nat) : Nat := (a + b / 2) / b

/-- `Except` success test. -/
def exceptIsOk : Except ε α → Bool
  | .ok _ => true
  | .error _ => false

/-! ## Recommendations and the runner's summary generator
(`PerformanceAnalysisRunner.generateSummary`). -/

/-- A recommendation/optimization entry.  The source attaches further metadata
fields (`dependencies`, `files`, `count`, `size`); none of them is read by any
analysed computation, so they are not modelled. -/
structure Recommendation where
  category : String
  priority : String
  issue : String
  solution : String
deriving DecidableEq

/-- An entry of `summary.recommendations`: `{ source: …, ...rec }`. -/
structure SummaryRec where
  source : String
  entry : Recommendation
deriving DecidableEq

/-- The runner's `summary` object. -/
structure Summary where
  totalIssues : Nat
  criticalIssues : Nat
  recommendations : List SummaryRec
  score : Int
deriving DecidableEq

/-- One iteration of the `forEach` loops in `generateSummary`: count the
issue, bump `criticalIssues` for High, subtract the priority penalty
(High 15 / Medium 10 / otherwise 5) and append the sourced entry. -/
def summaryApplyRec (src : String) (s : Summary) (r : Recommendation) : Summary :=
  { totalIssues := s.totalIssues + 1
    criticalIssues := if r.priority = "High" then s.criticalIssues + 1 else s.criticalIssues
    score := s.score -
      (if r.priority = "High" then 15 else if r.priority = "Medium" then 10 else 5)
    recommendations := s.recommendations ++ [⟨src, r⟩] }

/-- `PerformanceAnalysisRunner.generateSummary`: aggregates
`results.performance?.recommendations` and `results.bundle?.optimizations`
(absent results contribute nothing), then floors the score at 0 with
`Math.max`. -/
def generateSummary (perfRecs : Option (List Recommendation))
    (bundleOpts : Option (List Recommendation)) : Summary :=
  let s0 : Summary := ⟨0, 0, [], 100⟩
  let s1 := match perfRecs with
    | none => s0
    | some recs => recs.foldl (summaryApplyRec "Performance") s0
  let s2 := match bundleOpts with
    | none => s1
    | some opts => opts.foldl (summaryApplyRec "Bundle") s1
  { s2 with score := max 0 s2.score }

/-- Total penalty of a recommendation list under the summary's scoring. -/
def summaryPenalty (recs : List Recommendation) : Int :=
  (recs.map (fun r =>
    if r.priority = "High" then (15 : Int)
    else if r.priority = "Medium" then 10 else 5)).sum

/-- Number of recommendations with the given priority string. -/
def countPriority (p : String) (recs : List Recommendation) : Nat :=
  (recs.filter (fun r => r.priority == p)).length

/-- Number of recommendations whose priority is neither High nor Medium. -/
def countOtherPriority (recs : List Recommendation) : Nat :=
  (recs.filter (fun r => r.priority != "High" && r.priority != "Medium")).length

/-- Sample high-priority recommendation (as produced by the analyzer for heavy
dependencies). -/
def sampleHighRec : Recommendation :=
  ⟨"Dependencies", "High", "Heavy dependencies detected",
   "Consider lighter alternatives or tree-shaking"⟩

/-- Sample medium-priority recommendation (as produced for console statements). -/
def sampleMediumRec : Recommendation :=
  ⟨"Production", "Medium", "Console statements in code",
   "Remove console statements in production builds"⟩

/-! ## Manifest (`package.json`) model and `PerformanceAnalyzer` manifest code -/

/-- Parsed `package.json` content: the maps the analyzers read.
`hasSideEffectsField` models `packageJson.sideEffects !== undefined`. -/
structure Manifest where
  dependencies : List (String × String)
  devDependencies : List (String × String)
  scripts : List (String × String)
  hasSideEffectsField : Bool

/-- State of the manifest file on disk: missing, present but not valid JSON
(`JSON.parse` throws), or parsed. -/
inductive ManifestFile where
  | absent
  | malformed
  | parsed (m : Manifest)

/-- Truthy lookup in the spread-merge `{...dependencies, ...devDependencies}`:
the dev entry wins when both declare the key. -/
def mergedDepTruthy (m : Manifest) (k : String) : Bool :=
  match assocLookup m.devDependencies k with
  | some v => v != ""
  | none => truthyStr (assocLookup m.dependencies k)

/-- `PerformanceAnalyzer.detectProjectType`.  A missing manifest yields the
`"unknown"` classification and an early return; a malformed manifest makes
`JSON.parse` throw, modelled as `Except.error`; otherwise the fixed checklist
of framework packages is consulted over the merged dependency map. -/
def detectProjectType (mf : ManifestFile) : Except String String :=
  match mf with
  | .absent => .ok "unknown"
  | .malformed => .error "Unexpected token in JSON"
  | .parsed m =>
      if mergedDepTruthy m "react" then .ok "React"
      else if mergedDepTruthy m "vue" || mergedDepTruthy m "@vue/cli-service" then .ok "Vue"
      else if mergedDepTruthy m "@angular/core" then .ok "Angular"
      else if mergedDepTruthy m "next" then .ok "Next.js"
      else if mergedDepTruthy m "svelte" then .ok "Svelte"
      else .ok "JavaScript"

/-- The fixed list of known-heavy package names. -/
def heavyDependencyNames : List String :=
  ["lodash", "moment", "jquery", "bootstrap", "antd",
   "material-ui", "@material-ui/core", "rxjs"]

/-- The fixed groups of same-purpose packages checked for duplication. -/
def duplicateGroups : List (List String) :=
  [["moment", "dayjs", "date-fns"],
   ["lodash", "underscore", "ramda"],
   ["axios", "fetch", "superagent"],
   ["uuid", "shortid", "nanoid"]]

/-- `PerformanceAnalyzer.findDuplicateDependencies`: for each fixed group,
collect the declared production-dependency names belonging to it; groups with
two or more matches are pushed as one finding each. -/
def findDuplicateDependencies (dependencies : List (String × String)) : List (List String) :=
  let depNames := dependencies.map Prod.fst
  duplicateGroups.foldl (fun acc group =>
    let found := depNames.filter (fun dep => group.contains dep)
    if 1 < found.length then acc ++ [found] else acc) []

/-- The `dependencyAnalysis` result section. -/
structure DepAnalysis where
  totalDependencies : Nat
  totalDevDependencies : Nat
  heavyDependencies : List String
  duplicateDependencies : List (List String)
deriving DecidableEq

/-- Core of `PerformanceAnalyzer.analyzeDependencies` on a parsed manifest:
heavy detection filters the production-dependency names by substring match
against the heavy list; duplicate detection also runs on the production
dependencies only; dev dependencies are merely counted. -/
def analyzeDependenciesCore (deps devDeps : List (String × String)) : DepAnalysis :=
  { totalDependencies := deps.length
    totalDevDependencies := devDeps.length
    heavyDependencies :=
      (deps.map Prod.fst).filter (fun dep =>
        heavyDependencyNames.any (fun heavy => strContains dep heavy))
    duplicateDependencies := findDuplicateDependencies deps }

/-- `PerformanceAnalyzer.analyzeDependencies` as a phase: a missing manifest
skips the section (leaving it unset), a malformed one throws in `JSON.parse`. -/
def analyzeDependenciesPhase (mf : ManifestFile) : Except String (Option DepAnalysis) :=
  match mf with
  | .absent => .ok none
  | .malformed => .error "Unexpected token in JSON"
  | .parsed m => .ok (some (analyzeDependenciesCore m.dependencies m.devDependencies))

/-! ## File-system trees.

Directories carry a `readable` flag: iterating an unreadable directory models
`fs.readdirSync` throwing `EACCES`.  Files carry their `fs.statSync` size and
their text content as a list of lines (the source reads content separately via
`fs.readFileSync`; the embedding stores it in the node). -/

mutual
inductive FSEntry : Type where
  | file (name : String) (size : Nat) (lines : List String) : FSEntry
  | dir (name : String) (readable : Bool) (entries : FSList) : FSEntry
inductive FSList : Type where
  | nil : FSList
  | cons (e : FSEntry) (rest : FSList) : FSList
end

/-- A source file as consumed by `analyzeCodePatterns`: path relative to the
project root, byte size, content lines. -/
structure SrcFile where
  path : String
  size : Nat
  lines : List String
deriving DecidableEq

/-- Source-file extensions recognized by `analyzeCodePatterns`. -/
def codeFileExtensions : List String :=
  [".js", ".jsx", ".ts", ".tsx", ".vue", ".svelte"]

mutual
/-- One loop iteration of `PerformanceAnalyzer.findFiles`: directories are
recursed into unless hidden (name starts with `.`) or named `node_modules`;
files are kept when their extension is in `extensions`. -/
def findFilesEntry (exts : List String) (p : String) : FSEntry → Except String (List SrcFile)
  | .file n s ls =>
      .ok (if exts.contains (extnameStr n) then [⟨p ++ n, s, ls⟩] else [])
  | .dir n r es =>
      if !(strStartsWith n ".") && n != "node_modules" then
        if r then findFilesList exts (p ++ n ++ "/") es else .error "EACCES"
      else .ok []
/-- The `for (const entry of entries)` loop of `findFiles`; an exception thrown
mid-loop aborts the rest. -/
def findFilesList (exts : List String) (p : String) : FSList → Except String (List SrcFile)
  | .nil => .ok []
  | .cons e rest =>
      match findFilesEntry exts p e with
      | .error err => .error err
      | .ok here =>
          match findFilesList exts p rest with
          | .error err => .error err
          | .ok there => .ok (here ++ there)
end

/-- `PerformanceAnalyzer.findFiles` on the project root (the root itself is
read unconditionally; the hidden/`node_modules` exclusions apply to
subdirectories encountered during the walk). -/
def findFiles (exts : List String) (root : FSEntry) : Except String (List SrcFile) :=
  match root with
  | .file _ _ _ => .ok []
  | .dir _ r es => if r then findFilesList exts "" es else .error "EACCES"

mutual
/-- Does the walk of `findFiles` only meet readable directories below this
entry?  Excluded directories are not entered, so their contents don't count. -/
def walkOkEntry : FSEntry → Bool
  | .file _ _ _ => true
  | .dir n r es =>
      if !(strStartsWith n ".") && n != "node_modules" then r && walkOkList es
      else true
/-- List version of `walkOkEntry`. -/
def walkOkList : FSList → Bool
  | .nil => true
  | .cons e rest => walkOkEntry e && walkOkList rest
end

/-- Readability of everything `findFiles` visits starting at the root. -/
def rootWalkOk : FSEntry → Bool
  | .file _ _ _ => true
  | .dir _ r es => r && walkOkList es

mutual
/-- One loop iteration of `BundleAnalyzer.getAllFiles`: no exclusions, every
file is returned with its path and size. -/
def getAllFilesEntry (p : String) : FSEntry → Except String (List (String × Nat))
  | .file n s _ => .ok [(p ++ n, s)]
  | .dir n r es =>
      if r then getAllFilesList (p ++ n ++ "/") es else .error "EACCES"
/-- The recursion of `getAllFiles` over a directory listing. -/
def getAllFilesList (p : String) : FSList → Except String (List (String × Nat))
  | .nil => .ok []
  | .cons e rest =>
      match getAllFilesEntry p e with
      | .error err => .error err
      | .ok here =>
          match getAllFilesList p rest with
          | .error err => .error err
          | .ok there => .ok (here ++ there)
end

/-- `BundleAnalyzer.getAllFiles` applied to a build directory named
`buildDir`; returned paths are relative to the project root, mirroring
`path.relative(this.projectRoot, file)`.  (Named `getAllBuildFiles` here
because `getAllFiles` is already taken in the ambient library.) -/
def getAllBuildFiles (buildDir : String) (root : FSEntry) : Except String (List (String × Nat)) :=
  match root with
  | .file _ _ _ => .ok []
  | .dir _ r es => if r then getAllFilesList (buildDir ++ "/") es else .error "EACCES"

/-! ## `BundleAnalyzer.analyzeBuildDirectory` -/

/-- A `fileInfo` record (`{path, size}`; the derived float `sizeKB` display
field is not modelled). -/
structure FileInfo where
  path : String
  size : Nat
deriving DecidableEq

/-- Script extensions used by the build-directory classifier. -/
def buildJsExtensions : List String := [".js", ".mjs", ".jsx", ".ts", ".tsx"]

/-- Style extensions used by the build-directory classifier. -/
def buildCssExtensions : List String := [".css", ".scss", ".sass", ".less"]

/-- The per-build-directory analysis record. -/
structure BuildAnalysis where
  totalSize : Nat
  fileCount : Nat
  jsFiles : List FileInfo
  cssFiles : List FileInfo
  assetFiles : List FileInfo
  largestFiles : List FileInfo
deriving DecidableEq

/-- One iteration of the `for (const file of files)` loop in
`analyzeBuildDirectory`: accumulate total size and count, classify by
lower-cased extension (script / style / asset catch-all), and collect files
above 100 KB into `largestFiles`. -/
def buildDirStep (a : BuildAnalysis) (f : String × Nat) : BuildAnalysis :=
  let ext := (extnameStr f.1).toLower
  let fi : FileInfo := ⟨f.1, f.2⟩
  { totalSize := a.totalSize + f.2
    fileCount := a.fileCount + 1
    jsFiles := if buildJsExtensions.contains ext then a.jsFiles ++ [fi] else a.jsFiles
    cssFiles :=
      if buildJsExtensions.contains ext then a.cssFiles
      else if buildCssExtensions.contains ext then a.cssFiles ++ [fi] else a.cssFiles
    assetFiles :=
      if buildJsExtensions.contains ext || buildCssExtensions.contains ext then a.assetFiles
      else a.assetFiles ++ [fi]
    largestFiles := if 100000 < f.2 then a.largestFiles ++ [fi] else a.largestFiles }

/-- Insert into a size-descending list, keeping earlier elements first on
ties: the stable behaviour of `Array.prototype.sort((a, b) => b.size - a.size)`. -/
def insertBySizeDesc (f : FileInfo) : List FileInfo → List FileInfo
  | [] => [f]
  | g :: rest => if g.size < f.size then f :: g :: rest else g :: insertBySizeDesc f rest

/-- Stable sort descending by size. -/
def sortBySizeDesc (l : List FileInfo) : List FileInfo :=
  l.foldr insertBySizeDesc []

/-- The pure tail of `analyzeBuildDirectory` once the file list is known:
the classification loop followed by the three descending sorts. -/
def analyzeBuildFiles (files : List (String × Nat)) : BuildAnalysis :=
  let a := files.foldl buildDirStep ⟨0, 0, [], [], [], []⟩
  { a with
    jsFiles := sortBySizeDesc a.jsFiles
    cssFiles := sortBySizeDesc a.cssFiles
    largestFiles := sortBySizeDesc a.largestFiles }

/-- `BundleAnalyzer.analyzeBuildDirectory`: walk the directory (exceptions
from `getAllFiles` propagate) and analyze the files found. -/
def analyzeBuildDirectory (buildDir : String) (root : FSEntry) : Except String BuildAnalysis :=
  (getAllBuildFiles buildDir root).map analyzeBuildFiles

/-! ## `BundleAnalyzer.analyzeChunking` -/

/-- Lower-case hexadecimal digit, the character class `[a-f0-9]` of the
chunk-hash regex. -/
def isHexLower (c : Char) : Bool :=
  (('a' ≤ c) && (c ≤ 'f')) || (('0' ≤ c) && (c ≤ '9'))

/-- The regex test `/\.[a-f0-9]{8,}\.js$/.test(filename)`: the name ends in
`.js`, immediately preceded by a run of at least 8 lower-case hex digits,
immediately preceded by a dot.  (Backtracking cannot shorten the run: every
hex digit differs from `.`, so the maximal run is the only candidate.) -/
def hashJsSuffix (name : String) : Bool :=
  match name.data.reverse with
  | 's' :: 'j' :: '.' :: rest =>
      let run := rest.takeWhile isHexLower
      decide (8 ≤ run.length) &&
        (match rest.drop run.length with
         | '.' :: _ => true
         | _ => false)
  | _ => false

/-- The chunk-name test of `analyzeChunking`: literal substrings `chunk`,
`vendor`, `common`, or the content-hash regex. -/
def isChunkFilename (filename : String) : Bool :=
  strContains filename "chunk" || strContains filename "vendor" ||
    strContains filename "common" || hashJsSuffix filename

/-- A `recommendations` entry of `analyzeChunking` (`{type, file, size,
message}`; the constant `type`/`message` strings and the float `size` are
summarized by the offending file). -/
structure ChunkRec where
  file : String
  size : Nat
deriving DecidableEq

/-- The `chunkAnalysis` result record (`entryChunks` is initialized and never
written in the source, hence not modelled). -/
structure ChunkAnalysis where
  hasCodeSplitting : Bool
  chunkFiles : List FileInfo
  vendorChunks : List FileInfo
  recommendations : List ChunkRec
deriving DecidableEq

/-- First pass of `analyzeChunking` over one script file: if the basename
passes the chunk test, mark code splitting, push into `chunkFiles`, and into
`vendorChunks` when the name also mentions `vendor` or `node_modules`. -/
def chunkCollectStep (st : ChunkAnalysis) (f : FileInfo) : ChunkAnalysis :=
  let filename := basenameStr f.path
  if isChunkFilename filename then
    { st with
      hasCodeSplitting := true
      chunkFiles := st.chunkFiles ++ [f]
      vendorChunks :=
        if strContains filename "vendor" || strContains filename "node_modules" then
          st.vendorChunks ++ [f]
        else st.vendorChunks }
  else st

/-- All script files of all analyzed build directories, in traversal order
(`Object.values(this.results.buildSize)` then `jsFiles`). -/
def allJsFiles (builds : List BuildAnalysis) : List FileInfo :=
  (builds.map BuildAnalysis.jsFiles).flatten

/-- `BundleAnalyzer.analyzeChunking` on the collected build analyses: the
first double `forEach` collects chunk files, the second flags every script
file above 500 KB whose path is not among the collected chunk files. -/
def analyzeChunking (builds : List BuildAnalysis) : ChunkAnalysis :=
  let st := builds.foldl (fun st b => b.jsFiles.foldl chunkCollectStep st)
    ⟨false, [], [], []⟩
  let recs := builds.foldl (fun acc b =>
    b.jsFiles.foldl (fun acc f =>
      if 500000 < f.size && !(st.chunkFiles.any (fun c => c.path == f.path)) then
        acc ++ [⟨f.path, f.size⟩]
      else acc) acc) []
  { st with recommendations := recs }

/-- Modelled from the claim's wording, for comparison with the source's
`isChunkFilename`: a name counts as a chunk if it contains `chunk`, `vendor`
or `common`, or ends with a dot-separated hexadecimal segment of at least 8
characters immediately before the (arbitrary) extension. -/
def specChunkNaming (filename : String) : Bool :=
  strContains filename "chunk" || strContains filename "vendor" ||
    strContains filename "common" ||
    (let ext := extnameStr filename
     let stem := filename.data.take (filename.data.length - ext.data.length)
     let run := stem.reverse.takeWhile isHexLower
     ext != "" && decide (8 ≤ run.length) &&
       (match stem.reverse.drop run.length with
        | '.' :: _ => true
        | _ => false))

/-! ## `PerformanceAnalyzer.analyzeCodePatterns` -/

/-- A `CodeIssue` as pushed into `inefficientPatterns`: file, 1-based line,
fixed issue text. -/
structure CodeIssue where
  file : String
  line : Nat
  issue : String
deriving DecidableEq

/-- The `patterns` accumulator of `analyzeCodePatterns`.  `largeFiles` entries
carry the rounded KB figure the source formats (`Math.round(size/1024)`);
`unusedImports` is initialized and never written in the source, hence not
modelled.  Note that inline styles and console statements are bare counters. -/
structure CodePatterns where
  largeFiles : List (String × Nat)
  inefficientPatterns : List CodeIssue
  inlineStyles : Nat
  consoleStatements : Nat
deriving DecidableEq

/-- One iteration of `lines.forEach((line, index) => …)`: three independent
substring checks; only the DOM-query check records a per-line issue, the other
two only bump counters. -/
def scanLineStep (file : String) (pat : CodePatterns) (idx : Nat) (line : String) :
    CodePatterns :=
  { pat with
    inlineStyles :=
      if strContains line "style=\x7b\x7b" || strContains line "style=\"\x7b" then
        pat.inlineStyles + 1
      else pat.inlineStyles
    consoleStatements :=
      if strContains line "console." then pat.consoleStatements + 1
      else pat.consoleStatements
    inefficientPatterns :=
      if strContains line "document.querySelector" || strContains line "getElementById" then
        pat.inefficientPatterns ++ [⟨file, idx + 1, "DOM manipulation in component"⟩]
      else pat.inefficientPatterns }

/-- The line loop of `analyzeCodePatterns` with its running 0-based index. -/
def scanLinesGo (file : String) (idx : Nat) (pat : CodePatterns) :
    List String → CodePatterns
  | [] => pat
  | l :: rest => scanLinesGo file (idx + 1) (scanLineStep file pat idx l) rest

/-- Per-file body of `analyzeCodePatterns`: the 100 KB large-file check, then
the line scan.  (The per-file `try` only guards filesystem reads, which the
embedding carries in the tree, so it cannot fire here.) -/
def scanFile (pat : CodePatterns) (f : SrcFile) : CodePatterns :=
  let pat :=
    if 100000 < f.size then
      { pat with largeFiles := pat.largeFiles ++ [(f.path, roundDiv f.size 1024)] }
    else pat
  scanLinesGo f.path 0 pat f.lines

/-- `PerformanceAnalyzer.analyzeCodePatterns` on an already-walked file list. -/
def analyzeCodePatterns (files : List SrcFile) : CodePatterns :=
  files.foldl scanFile ⟨[], [], 0, 0⟩

/-! ## Project input and the remaining `BundleAnalyzer` phases -/

/-- Everything the two analyzers read from the project: the manifest, the
bundler config files present at the root (name and content; `existsSync` is
key membership), the conventional build-output directories that exist (name
and tree), the source tree under the project root, and a content store for
the minification heuristic's reads of built script files. -/
structure ProjectInput where
  manifest : ManifestFile
  configFiles : List (String × String)
  buildDirs : List (String × FSEntry)
  srcRoot : FSEntry
  fileContents : List (String × String)

/-- `fs.existsSync` for a root-level config file. -/
def configExists (inp : ProjectInput) (n : String) : Bool :=
  (assocLookup inp.configFiles n).isSome

/-- `results.bundler`. -/
structure Bundler where
  name : String
  configFile : Option String
  hasConfig : Bool
deriving DecidableEq

/-- The fixed `bundlers` candidate table of `detectBundler`:
name, config file, alternative config file. -/
def bundlerCandidates : List (String × String × String) :=
  [("webpack", "webpack.config.js", "webpack.config.ts"),
   ("vite", "vite.config.js", "vite.config.ts"),
   ("rollup", "rollup.config.js", "rollup.config.ts"),
   ("parcel", ".parcelrc", "parcel.config.js"),
   ("esbuild", "esbuild.config.js", "build.js"),
   ("snowpack", "snowpack.config.js", "snowpack.config.mjs")]

/-- The config-file loop of `detectBundler`: first candidate whose config or
alternative config exists wins. -/
def detectBundlerFromConfigs (inp : ProjectInput) : Option Bundler :=
  bundlerCandidates.findSome? (fun c =>
    if configExists inp c.2.1 || configExists inp c.2.2 then
      some ⟨c.1, some (if configExists inp c.2.1 then c.2.1 else c.2.2), true⟩
    else none)

/-- `BundleAnalyzer.detectBundler`: config files first; otherwise infer from
the manifest's build script and dependencies (`JSON.parse` throws on a
malformed manifest); with no manifest the bundler stays unset. -/
def detectBundler (inp : ProjectInput) : Except String (Option Bundler) :=
  match detectBundlerFromConfigs inp with
  | some b => .ok (some b)
  | none =>
      match inp.manifest with
      | .absent => .ok none
      | .malformed => .error "Unexpected token in JSON"
      | .parsed m =>
          let buildScript := assocLookup m.scripts "build"
          if truthyStr buildScript && strContains (buildScript.getD "") "vite" then
            .ok (some ⟨"vite", none, false⟩)
          else if truthyStr buildScript && strContains (buildScript.getD "") "webpack" then
            .ok (some ⟨"webpack", none, false⟩)
          else if mergedDepTruthy m "@parcel/core" || mergedDepTruthy m "parcel" then
            .ok (some ⟨"parcel", none, false⟩)
          else if mergedDepTruthy m "rollup" then
            .ok (some ⟨"rollup", none, false⟩)
          else .ok (some ⟨"unknown", none, false⟩)

/-- The `for (const buildDir of foundBuilds)` loop of `analyzeBuildOutput`:
build directories are analyzed in order; an exception from
`analyzeBuildDirectory` aborts the loop but the entries assigned before it
remain. -/
def analyzeBuildOutputFold :
    List (String × FSEntry) → List (String × BuildAnalysis) × Option String
  | [] => ([], none)
  | (d, t) :: rest =>
      match analyzeBuildDirectory d t with
      | .error e => ([], some e)
      | .ok a =>
          let (tl, err) := analyzeBuildOutputFold rest
          ((d, a) :: tl, err)

/-- `BundleAnalyzer.checkTreeShaking` as a phase: substring checks over the
detected bundler's config content (read failures are swallowed by the inner
`try`), then the `sideEffects` manifest field — whose read re-parses
`package.json` and throws on a malformed manifest. -/
def checkTreeShakingPhase (inp : ProjectInput) (bundler : Option Bundler) :
    Except String Bool :=
  let fromConfig :=
    match bundler with
    | some b =>
        match b.configFile with
        | some cf =>
            match assocLookup inp.configFiles cf with
            | some content =>
                strContains content "sideEffects" || strContains content "usedExports" ||
                  strContains content "mode: \"production\""
            | none => false
        | none => false
    | none => false
  match inp.manifest with
  | .absent => .ok fromConfig
  | .malformed => .error "Unexpected token in JSON"
  | .parsed m => .ok (fromConfig || m.hasSideEffectsField)

/-- `results.compression`. -/
structure CompressionAnalysis where
  gzip : Bool
  brotli : Bool
  minification : Bool
deriving DecidableEq

/-- Number of newline characters in a string. -/
def countNewlines (s : String) : Nat :=
  (s.data.filter (fun c => c == '\n')).length

/-- `BundleAnalyzer.checkCompression`: `.gz`/`.br` siblings among all
discovered build files, and the average-line-length heuristic over the top 3
script files of each build (file reads that miss the content store are
ignored, as by the inner `try`).  Average line length above 500 is modelled
exactly as `content.length > 500 * lineCount`. -/
def checkCompression (builds : List BuildAnalysis)
    (fileContents : List (String × String)) : CompressionAnalysis :=
  let allFiles := builds.foldl (fun acc b => acc ++ b.jsFiles ++ b.cssFiles ++ b.assetFiles) []
  { gzip := allFiles.any (fun f => strEndsWith f.path ".gz")
    brotli := allFiles.any (fun f => strEndsWith f.path ".br")
    minification := builds.any (fun b =>
      (b.jsFiles.take 3).any (fun f =>
        match assocLookup fileContents f.path with
        | some content => 500 * (countNewlines content + 1) < content.length
        | none => false)) }

/-- `BundleAnalyzer.generateOptimizations`: the fixed rule list, in source
order, over the build sizes, tree-shaking flag, compression flags and
detected bundler. -/
def generateOptimizations (buildSize : List (String × BuildAnalysis))
    (treeShakingEnabled : Bool) (comp : CompressionAnalysis)
    (bundler : Option Bundler) : List Recommendation :=
  let recs := buildSize.foldl (fun acc db =>
    let acc :=
      if 5000000 < db.2.totalSize then
        acc ++ [⟨"Bundle Size", "High", "Large bundle size in " ++ db.1,
                 "Implement code splitting and lazy loading"⟩]
      else acc
    acc ++ ((db.2.jsFiles.take 3).filter (fun f => 1000000 < f.size)).map (fun f =>
      ⟨"Code Splitting", "High", "Large JavaScript file: " ++ f.path,
       "Split this file into smaller chunks"⟩)) []
  let recs :=
    if !treeShakingEnabled then
      recs ++ [⟨"Tree Shaking", "Medium", "Tree-shaking not detected",
               "Enable tree-shaking to remove unused code"⟩]
    else recs
  let recs :=
    if !comp.gzip then
      recs ++ [⟨"Compression", "Medium", "Gzip compression not enabled",
               "Enable gzip compression on your server"⟩]
    else recs
  let recs :=
    if !comp.brotli then
      recs ++ [⟨"Compression", "Low", "Brotli compression not enabled",
               "Enable Brotli compression for better compression ratios"⟩]
    else recs
  match bundler with
  | some b =>
      if b.name = "webpack" then
        recs ++ [⟨"Webpack", "Medium", "Webpack optimizations",
                 "Use SplitChunksPlugin, optimize chunks, enable production mode"⟩]
      else if b.name = "vite" then
        recs ++ [⟨"Vite", "Low", "Vite optimizations",
                 "Configure build.rollupOptions for better chunking"⟩]
      else if b.name = "rollup" then
        recs ++ [⟨"Rollup", "Medium", "Rollup optimizations",
                 "Use rollup-plugin-terser for minification, configure external dependencies"⟩]
      else recs
  | none => recs

/-- The `BundleAnalyzer.results` object. -/
structure BundleResults where
  bundler : Option Bundler
  buildSize : List (String × BuildAnalysis)
  chunkAnalysis : Option ChunkAnalysis
  treeshaking : Option Bool
  compression : Option CompressionAnalysis
  optimizations : List Recommendation

/-- `BundleAnalyzer.analyze`: the phase sequence inside one `try`.  An
exception in any phase is caught there — logged, leaving the results
accumulated so far and skipping the remaining phases — so the method itself
never throws; the caught error (if any) is returned alongside. -/
def bundleAnalyze (inp : ProjectInput) : BundleResults × Option String :=
  let b0 : BundleResults := ⟨none, [], none, none, none, []⟩
  match detectBundler inp with
  | .error e => (b0, some e)
  | .ok bd =>
      let b1 := { b0 with bundler := bd }
      let (sizes, err) := analyzeBuildOutputFold inp.buildDirs
      let b2 := { b1 with buildSize := sizes }
      match err with
      | some e => (b2, some e)
      | none =>
          let b3 := { b2 with chunkAnalysis := some (analyzeChunking (sizes.map Prod.snd)) }
          match checkTreeShakingPhase inp bd with
          | .error e => (b3, some e)
          | .ok ts =>
              let b4 := { b3 with treeshaking := some ts }
              let comp := checkCompression (sizes.map Prod.snd) inp.fileContents
              let b5 := { b4 with compression := some comp }
              ({ b5 with optimizations := generateOptimizations sizes ts comp bd }, none)

/-! ## The remaining `PerformanceAnalyzer` phases and its pipeline -/

/-- `results.bundleAnalysis` of the performance analyzer. -/
structure BundleConfigInfo where
  hasWebpack : Bool
  hasVite : Bool
  hasRollup : Bool
  hasParcel : Bool
  buildScripts : List (String × String)
deriving DecidableEq

/-- `PerformanceAnalyzer.getBuildScripts`: `{}` without a manifest, a
`JSON.parse` throw on a malformed one. -/
def getBuildScripts (mf : ManifestFile) : Except String (List (String × String)) :=
  match mf with
  | .absent => .ok []
  | .malformed => .error "Unexpected token in JSON"
  | .parsed m => .ok m.scripts

/-- `PerformanceAnalyzer.analyzeBundleSize`: existence checks for the four
bundler config files plus the manifest's scripts. -/
def analyzeBundleSizePhase (inp : ProjectInput) : Except String BundleConfigInfo :=
  match getBuildScripts inp.manifest with
  | .error e => .error e
  | .ok s =>
      .ok ⟨configExists inp "webpack.config.js", configExists inp "vite.config.js",
           configExists inp "rollup.config.js", configExists inp ".parcelrc", s⟩

/-- `PerformanceAnalyzer.generateRecommendations` (with
`addFrameworkSpecificRecommendations`): the fixed rule list over the optional
result sections, where a still-empty section (`{}`) fails every guard. -/
def generateRecommendations (pt : Option String) (dep : Option DepAnalysis)
    (code : Option CodePatterns) : List Recommendation :=
  let recs : List Recommendation := []
  let recs :=
    if (match dep with
        | some d => !d.heavyDependencies.isEmpty
        | none => false) then
      recs ++ [⟨"Dependencies", "High", "Heavy dependencies detected",
               "Consider lighter alternatives or tree-shaking"⟩]
    else recs
  let recs :=
    if (match code with
        | some c => !c.largeFiles.isEmpty
        | none => false) then
      recs ++ [⟨"Code Splitting", "High", "Large files detected",
               "Implement code splitting and lazy loading"⟩]
    else recs
  let recs :=
    if (match code with
        | some c => decide (10 < c.inlineStyles)
        | none => false) then
      recs ++ [⟨"Styling", "Medium", "Excessive inline styles",
               "Extract styles to CSS modules or styled components"⟩]
    else recs
  let recs :=
    if (match code with
        | some c => decide (0 < c.consoleStatements)
        | none => false) then
      recs ++ [⟨"Production", "Medium", "Console statements in code",
               "Remove console statements in production builds"⟩]
    else recs
  match pt with
  | some "React" =>
      recs ++ [⟨"React Optimization", "Medium", "General React optimizations",
               "Implement React.memo, useMemo, useCallback for expensive operations"⟩]
  | some "Vue" =>
      recs ++ [⟨"Vue Optimization", "Medium", "General Vue optimizations",
               "Use v-memo, computed properties, and async components"⟩]
  | some "Angular" =>
      recs ++ [⟨"Angular Optimization", "Medium", "General Angular optimizations",
               "Implement OnPush change detection, lazy loading modules"⟩]
  | _ => recs

/-- The `PerformanceAnalyzer.results` object.  Sections still holding their
`{}` initializer are `none`. -/
structure AnalyzerResults where
  projectType : Option String
  dependencyAnalysis : Option DepAnalysis
  codeAnalysis : Option CodePatterns
  bundleAnalysis : Option BundleConfigInfo
  recommendations : List Recommendation

/-- `PerformanceAnalyzer.analyze`: the five phases run in order inside one
`try`; the first exception is caught there (logged), leaving the results
accumulated so far and skipping the remaining phases.  The method itself
never throws; the caught error (if any) is returned alongside the results. -/
def perfAnalyze (inp : ProjectInput) : AnalyzerResults × Option String :=
  let r0 : AnalyzerResults := ⟨none, none, none, none, []⟩
  match detectProjectType inp.manifest with
  | .error e => (r0, some e)
  | .ok pt =>
      let r1 := { r0 with projectType := some pt }
      match analyzeDependenciesPhase inp.manifest with
      | .error e => (r1, some e)
      | .ok dep =>
          let r2 := { r1 with dependencyAnalysis := dep }
          match findFiles codeFileExtensions inp.srcRoot with
          | .error e => (r2, some e)
          | .ok files =>
              let r3 := { r2 with codeAnalysis := some (analyzeCodePatterns files) }
              match analyzeBundleSizePhase inp with
              | .error e => (r3, some e)
              | .ok bc =>
                  let r4 := { r3 with bundleAnalysis := some bc }
                  let recs := generateRecommendations r4.projectType
                    r4.dependencyAnalysis r4.codeAnalysis
                  ({ r4 with recommendations := recs }, none)

/-! ## `PerformanceAnalysisRunner` and the CLI entry point -/

/-- Runner options after defaulting (`options.x !== false`). -/
structure RunnerOptions where
  runPerformanceAnalysis : Bool
  runBundleAnalysis : Bool
  generateReport : Bool
  outputFormat : String
deriving DecidableEq

/-- The defaults of the runner constructor. -/
def defaultRunnerOptions : RunnerOptions := ⟨true, true, true, "console"⟩

/-- One iteration of the CLI `args.forEach` flag parser. -/
def parseArg (o : RunnerOptions) (arg : String) : RunnerOptions :=
  let o := if arg == "--json" then { o with outputFormat := "json" } else o
  let o := if arg == "--html" then { o with outputFormat := "html" } else o
  let o := if arg == "--performance-only" then { o with runBundleAnalysis := false } else o
  let o := if arg == "--bundle-only" then { o with runPerformanceAnalysis := false } else o
  if arg == "--no-report" then { o with generateReport := false } else o

/-- The CLI flag parser. -/
def parseArgs (args : List String) : RunnerOptions :=
  args.foldl parseArg defaultRunnerOptions

/-- The runner's aggregated `results`. -/
structure CompleteResults where
  performance : Option AnalyzerResults
  bundle : Option BundleResults
  summary : Summary

/-- `PerformanceAnalysisRunner.runComplete`.  Its `try` rethrows, but both
analyzer calls catch their own exceptions internally, and the rest of the
body (summary generation; report output is not modelled) is non-throwing, so
the returned promise always resolves in the embedding. -/
def runComplete (opts : RunnerOptions) (inp : ProjectInput) : Except String CompleteResults :=
  let perf := if opts.runPerformanceAnalysis then some (perfAnalyze inp).1 else none
  let bund := if opts.runBundleAnalysis then some (bundleAnalyze inp).1 else none
  let summ := generateSummary (perf.map (·.recommendations)) (bund.map (·.optimizations))
  .ok ⟨perf, bund, summ⟩

/-- The CLI entry point of the runner script: `runComplete().then(() =>
process.exit(0)).catch(() => process.exit(1))`. -/
def cliExitCode (args : List String) (inp : ProjectInput) : Nat :=
  match runComplete (parseArgs args) inp with
  | .ok _ => 0
  | .error _ => 1

/-! ## Concrete inputs used by witnesses and counterexamples -/

/-- An empty, readable project root. -/
def emptyProjectRoot : FSEntry := .dir "project" true .nil

/-- A project whose `package.json` exists but is not valid JSON. -/
def malformedManifestInput : ProjectInput :=
  ⟨.malformed, [], [], emptyProjectRoot, []⟩

/-- A project with no `package.json` at all. -/
def absentManifestInput : ProjectInput :=
  ⟨.absent, [], [], emptyProjectRoot, []⟩

/-- A readable root holding one matching source file next to an unreadable
subdirectory that itself holds another source file. -/
def unreadableSubdirTree : FSEntry :=
  .dir "project" true
    (.cons (.file "a.js" 5 [])
      (.cons (.dir "sub" false (.cons (.file "b.js" 7 []) .nil)) .nil))

/-- A build directory containing exactly one 2 MB script file. -/
def distTwoMBTree : FSEntry :=
  .dir "dist" true (.cons (.file "main.js" (2 * 1024 * 1024) []) .nil)

/-- A build directory with one script, one style and one asset file. -/
def buildMixTree : FSEntry :=
  .dir "build" true
    (.cons (.file "app.js" 10 [])
      (.cons (.file "style.css" 20 [])
        (.cons (.file "logo.png" 30 []) .nil)))

/-- The analysis of `buildMixTree`. -/
def buildMixAnalysis : BuildAnalysis :=
  analyzeBuildFiles [("build/app.js", 10), ("build/style.css", 20), ("build/logo.png", 30)]

/-- A source file whose two lines each contain `console.log("x")`. -/
def twoConsoleFile : SrcFile :=
  ⟨"src/app.js", 40, ["console.log(\"x\")", "console.log(\"x\")"]⟩

/-- Production dependencies declaring two members each of two duplicate
groups. -/
def fourDupDeps : List (String × String) :=
  [("moment", "^2.29.0"), ("date-fns", "^2.30.0"),
   ("lodash", "^4.17.0"), ("underscore", "^1.13.0")]

/-- Production dependencies declaring exactly `moment` and `date-fns`. -/
def momentDateFnsDeps : List (String × String) :=
  [("moment", "^2.29.0"), ("date-fns", "^2.30.0")]

/-- A build analysis whose single script file carries a content hash before a
`.mjs` extension. -/
def mjsHashBuild : BuildAnalysis :=
  ⟨9, 1, [⟨"dist/app.abcdef0123.mjs", 9⟩], [], [], []⟩

/-- A build analysis whose single script file is a 600 KB non-chunk. -/
def bigJsBuild : BuildAnalysis :=
  ⟨600000, 1, [⟨"dist/big.js", 600000⟩], [], [],
   [⟨"dist/big.js", 600000⟩]⟩

/-! # Theorems

General-purpose lemmas first, then one theorem per specification claim (with
witnesses and counterexamples where the claim's status needs them). -/

theorem foldl_pushIf_map {α β : Type} (q : α → Bool) (m : α → β) (l : List α)
    (acc : List β) :
    l.foldl (fun a x => if q x then a ++ [m x] else a) acc
      = acc ++ (l.filter q).map m := by
  induction l generalizing acc with
  | nil => simp
  | cons x t ih =>
      by_cases hq : q x = true
      · simp [hq, ih]
      · simp only [Bool.not_eq_true] at hq
        simp [hq, ih]

theorem one_lt_length_of_two_mem {α : Type} {a b : α} {l : List α}
    (ha : a ∈ l) (hb : b ∈ l) (hne : a ≠ b) : 1 < l.length := by
  cases l with
  | nil => simp at ha
  | cons x t =>
      rcases List.mem_cons.mp ha with rfl | ha'
      · rcases List.mem_cons.mp hb with rfl | hb'
        · exact absurd rfl hne
        · have ht := List.length_pos.mpr (List.ne_nil_of_mem hb')
          simp only [List.length_cons]
          omega
      · have ht := List.length_pos.mpr (List.ne_nil_of_mem ha')
        simp only [List.length_cons]
        omega

/-! ### Lemmas about the summary generator -/

theorem summary_fold_spec (src : String) (l : List Recommendation) (s : Summary) :
    (l.foldl (summaryApplyRec src) s).score = s.score - summaryPenalty l
    ∧ (l.foldl (summaryApplyRec src) s).totalIssues = s.totalIssues + l.length
    ∧ (l.foldl (summaryApplyRec src) s).criticalIssues
        = s.criticalIssues + countPriority "High" l := by
  induction l generalizing s with
  | nil => simp [summaryPenalty, countPriority]
  | cons r t ih =>
      obtain ⟨h1, h2, h3⟩ := ih (summaryApplyRec src s r)
      refine ⟨?_, ?_, ?_⟩
      · rw [List.foldl_cons, h1]
        simp only [summaryApplyRec, summaryPenalty, List.map_cons, List.sum_cons]
        ring
      · rw [List.foldl_cons, h2]
        simp only [summaryApplyRec, List.length_cons]
        omega
      · rw [List.foldl_cons, h3]
        by_cases hp : r.priority = "High" <;>
          simp [summaryApplyRec, countPriority, List.filter_cons, hp] <;> omega

theorem summaryPenalty_counts (l : List Recommendation) :
    summaryPenalty l = 15 * (countPriority "High" l : Int)
      + 10 * (countPriority "Medium" l : Int) + 5 * (countOtherPriority l : Int) := by
  induction l with
  | nil => simp [summaryPenalty, countPriority, countOtherPriority]
  | cons r t ih =>
      by_cases hH : r.priority = "High"
      · simp [summaryPenalty, countPriority, countOtherPriority, hH] at ih ⊢
        omega
      · by_cases hM : r.priority = "Medium"
        · simp [summaryPenalty, countPriority, countOtherPriority, hH, hM] at ih ⊢
          omega
        · simp [summaryPenalty, countPriority, countOtherPriority, hH, hM] at ih ⊢
          omega

theorem summaryPenalty_append (a b : List Recommendation) :
    summaryPenalty (a ++ b) = summaryPenalty a + summaryPenalty b := by
  simp [summaryPenalty]

theorem generateSummary_score (p b : Option (List Recommendation)) :
    (generateSummary p b).score = max 0 (100 - summaryPenalty (p.getD [] ++ b.getD []))
    ∧ (generateSummary p b).totalIssues = (p.getD [] ++ b.getD []).length
    ∧ (generateSummary p b).criticalIssues
        = countPriority "High" (p.getD [] ++ b.getD []) := by
  have key : ∀ (pl bl : List Recommendation),
      (generateSummary (some pl) (some bl)).score
          = max 0 (100 - summaryPenalty (pl ++ bl))
      ∧ (generateSummary (some pl) (some bl)).totalIssues = (pl ++ bl).length
      ∧ (generateSummary (some pl) (some bl)).criticalIssues
          = countPriority "High" (pl ++ bl) := by
    intro pl bl
    obtain ⟨h1, h2, h3⟩ := summary_fold_spec "Performance" pl ⟨0, 0, [], 100⟩
    obtain ⟨g1, g2, g3⟩ :=
      summary_fold_spec "Bundle" bl (pl.foldl (summaryApplyRec "Performance") ⟨0, 0, [], 100⟩)
    refine ⟨?_, ?_, ?_⟩ <;>
      simp [generateSummary, g1, g2, g3, h1, h2, h3, summaryPenalty_append,
        countPriority, List.filter_append]
    omega
  have noneIsEmpty : ∀ (o : Option (List Recommendation)),
      (match o with
        | none => (⟨0, 0, [], 100⟩ : Summary)
        | some recs => recs.foldl (summaryApplyRec "Performance") ⟨0, 0, [], 100⟩)
        = (o.getD []).foldl (summaryApplyRec "Performance") ⟨0, 0, [], 100⟩ := by
    intro o
    cases o <;> simp
  cases p with
  | none =>
      cases b with
      | none => simpa [generateSummary] using key [] []
      | some bl => simpa [generateSummary] using key [] bl
  | some pl =>
      cases b with
      | none => simpa [generateSummary] using key pl []
      | some bl => exact key pl bl

/-- C1: for every collection of recommendations aggregated by
`PerformanceAnalysisRunner.generateSummary`, the reported score equals 100
minus 15 per High-priority recommendation, minus 10 per Medium-priority
recommendation, minus 5 per every other recommendation, floored at 0; it is
exactly 100 for zero recommendations, 85 for one High, 75 for one High plus
one Medium, and never below 0. -/
theorem runner_summary_score_formula :
    (∀ p b : Option (List Recommendation),
      (generateSummary p b).score
          = max 0 (100 - (15 * (countPriority "High" (p.getD [] ++ b.getD []) : Int)
              + 10 * (countPriority "Medium" (p.getD [] ++ b.getD []) : Int)
              + 5 * (countOtherPriority (p.getD [] ++ b.getD []) : Int)))
        ∧ 0 ≤ (generateSummary p b).score)
    ∧ (generateSummary none none).score = 100
    ∧ (generateSummary (some []) (some [])).score = 100
    ∧ (generateSummary (some [sampleHighRec]) (some [])).score = 85
    ∧ (generateSummary (some [sampleHighRec, sampleMediumRec]) (some [])).score = 75 := by
  refine ⟨fun p b => ⟨?_, ?_⟩, by decide, by decide, by decide, by decide⟩
  · rw [(generateSummary_score p b).1, summaryPenalty_counts]
  · rw [(generateSummary_score p b).1]
    exact le_max_left 0 _

/-! ### Lemmas about the manifest inspector -/

theorem dupFold_eq (groups : List (List String)) (n : List String)
    (acc : List (List String)) :
    groups.foldl (fun acc group =>
        let found := n.filter (fun dep => group.contains dep)
        if 1 < found.length then acc ++ [found] else acc) acc
      = acc ++ (groups.filter (fun g =>
          decide (1 < (n.filter (fun dep => g.contains dep)).length))).map
          (fun g => n.filter (fun dep => g.contains dep)) := by
  induction groups generalizing acc with
  | nil => simp
  | cons g t ih =>
      simp only [List.elem_eq_mem] at ih ⊢
      by_cases h : 1 < (n.filter (fun dep => decide (dep ∈ g))).length
      · simp [h, ih]
      · simp [h, ih]

theorem findDuplicateDependencies_eq (deps : List (String × String)) :
    findDuplicateDependencies deps
      = (duplicateGroups.filter (fun g =>
          decide (1 < ((deps.map Prod.fst).filter (fun dep => g.contains dep)).length))).map
          (fun g => (deps.map Prod.fst).filter (fun dep => g.contains dep)) := by
  have h := dupFold_eq duplicateGroups (deps.map Prod.fst) []
  simpa [findDuplicateDependencies] using h

theorem mem_of_mem_duplicate_finding {deps : List (String × String)} {g : List String}
    {x : String} (hg : g ∈ findDuplicateDependencies deps) (hx : x ∈ g) :
    x ∈ deps.map Prod.fst := by
  rw [findDuplicateDependencies_eq] at hg
  obtain ⟨grp, _, rfl⟩ := List.mem_map.mp hg
  exact (List.mem_filter.mp hx).1

/-- C10: heavy-dependency detection and duplicate-purpose detection examine
only the manifest's `dependencies` map: their outputs are unchanged by
`devDependencies`, and a package name absent from the production dependencies
never appears in the heavy list or in any duplicate-group finding, even
though dev dependencies are read and counted in the same analysis. -/
theorem dependency_findings_ignore_devDeps :
    ∀ (deps devDeps : List (String × String)),
      (analyzeDependenciesCore deps devDeps).totalDevDependencies = devDeps.length
      ∧ (analyzeDependenciesCore deps devDeps).heavyDependencies
          = (analyzeDependenciesCore deps []).heavyDependencies
      ∧ (analyzeDependenciesCore deps devDeps).duplicateDependencies
          = (analyzeDependenciesCore deps []).duplicateDependencies
      ∧ ∀ x : String, x ∉ deps.map Prod.fst →
          x ∉ (analyzeDependenciesCore deps devDeps).heavyDependencies
          ∧ ∀ g ∈ (analyzeDependenciesCore deps devDeps).duplicateDependencies, x ∉ g := by
  intro deps devDeps
  refine ⟨rfl, rfl, rfl, fun x hx => ⟨?_, ?_⟩⟩
  · intro hmem
    exact hx (List.mem_filter.mp hmem).1
  · intro g hg hxg
    exact hx (mem_of_mem_duplicate_finding hg hxg)

/-- C10 witness:`moment` and `date-fns` declared only under devDependencies
are never reported, although the dev dependencies are counted. -/
theorem dependency_findings_ignore_devDeps_witness :
    ("moment" ∉ ([("react", "18.2.0")] : List (String × String)).map Prod.fst)
    ∧ (analyzeDependenciesCore [("react", "18.2.0")]
        [("moment", "2.29.4"), ("date-fns", "2.30.0")]).totalDevDependencies = 2
    ∧ "moment" ∉ (analyzeDependenciesCore [("react", "18.2.0")]
        [("moment", "2.29.4"), ("date-fns", "2.30.0")]).heavyDependencies
    ∧ ∀ g ∈ (analyzeDependenciesCore [("react", "18.2.0")]
        [("moment", "2.29.4"), ("date-fns", "2.30.0")]).duplicateDependencies,
        "moment" ∉ g := by
  have h := dependency_findings_ignore_devDeps [("react", "18.2.0")]
    [("moment", "2.29.4"), ("date-fns", "2.30.0")]
  exact ⟨by decide, h.1, (h.2.2.2 "moment" (by decide)).1, (h.2.2.2 "moment" (by decide)).2⟩

/-- C7 (amended): a manifest declaring both `moment` and `date-fns` always
receives exactly one duplicate-group finding that contains both names — the
date-library group's — though other duplicate groups may add further
findings of their own. -/
theorem duplicate_group_moment_datefns :
    ∀ deps : List (String × String),
      "moment" ∈ deps.map Prod.fst → "date-fns" ∈ deps.map Prod.fst →
      ((findDuplicateDependencies deps).filter
          (fun g => g.contains "moment" && g.contains "date-fns")).length = 1 := by
  intro deps hm hd
  rw [findDuplicateDependencies_eq, List.filter_map, List.filter_filter, List.length_map]
  simp only [Function.comp]
  have hmem1 : "moment" ∈ (deps.map Prod.fst).filter
      (fun dep => (["moment", "dayjs", "date-fns"] : List String).contains dep) :=
    List.mem_filter.mpr ⟨hm, by decide⟩
  have hmem2 : "date-fns" ∈ (deps.map Prod.fst).filter
      (fun dep => (["moment", "dayjs", "date-fns"] : List String).contains dep) :=
    List.mem_filter.mpr ⟨hd, by decide⟩
  have hq1 : decide (1 < ((deps.map Prod.fst).filter
      (fun dep => (["moment", "dayjs", "date-fns"] : List String).contains dep)).length)
      = true :=
    decide_eq_true (one_lt_length_of_two_mem hmem1 hmem2 (by decide))
  have hc1 : ((deps.map Prod.fst).filter
      (fun dep => (["moment", "dayjs", "date-fns"] : List String).contains dep)).contains
      "moment" = true := List.elem_iff.mpr hmem1
  have hc2 : ((deps.map Prod.fst).filter
      (fun dep => (["moment", "dayjs", "date-fns"] : List String).contains dep)).contains
      "date-fns" = true := List.elem_iff.mpr hmem2
  have noMoment : ∀ grp : List String, "moment" ∉ grp →
      ((deps.map Prod.fst).filter (fun dep => grp.contains dep)).contains "moment"
      = false := by
    intro grp hgrp
    cases hc : ((deps.map Prod.fst).filter (fun dep => grp.contains dep)).contains "moment"
    · rfl
    · exact absurd (List.elem_iff.mp (List.mem_filter.mp (List.elem_iff.mp hc)).2) hgrp
  have hno2 := noMoment ["lodash", "underscore", "ramda"] (by decide)
  have hno3 := noMoment ["axios", "fetch", "superagent"] (by decide)
  have hno4 := noMoment ["uuid", "shortid", "nanoid"] (by decide)
  simp only [duplicateGroups, List.filter_cons, List.filter_nil,
    hc1, hc2, hq1, hno2, hno3, hno4, Bool.true_and, Bool.false_and, Bool.and_true,
    Bool.and_false]
  simp

/-- C7 witness: the theorem applied to the two-entry manifest declaring
exactly `moment` and `date-fns`. -/
theorem duplicate_group_moment_datefns_witness :
    ("moment" ∈ momentDateFnsDeps.map Prod.fst
      ∧ "date-fns" ∈ momentDateFnsDeps.map Prod.fst)
    ∧ ((findDuplicateDependencies momentDateFnsDeps).filter
        (fun g => g.contains "moment" && g.contains "date-fns")).length = 1 :=
  ⟨⟨by decide, by decide⟩,
   duplicate_group_moment_datefns momentDateFnsDeps (by decide) (by decide)⟩

/-- C7 counterexample: a manifest declaring `moment` and `date-fns` together
with `lodash` and `underscore` receives two duplicate-group findings, not
exactly one, refuting the claim as universally stated. -/
theorem duplicate_group_moment_datefns_counterexample :
    findDuplicateDependencies fourDupDeps
      = [["moment", "date-fns"], ["lodash", "underscore"]]
    ∧ (findDuplicateDependencies fourDupDeps).length = 2 := by
  constructor
  · rfl
  · rfl

/-! ### Lemmas about the build-directory inspector -/

theorem length_insertBySizeDesc (f : FileInfo) (l : List FileInfo) :
    (insertBySizeDesc f l).length = l.length + 1 := by
  induction l with
  | nil => rfl
  | cons g rest ih =>
      by_cases h : g.size < f.size
      · simp [insertBySizeDesc, h]
      · simp [insertBySizeDesc, h, ih]

theorem length_sortBySizeDesc (l : List FileInfo) :
    (sortBySizeDesc l).length = l.length := by
  induction l with
  | nil => rfl
  | cons f rest ih =>
      show (insertBySizeDesc f (sortBySizeDesc rest)).length = rest.length + 1
      rw [length_insertBySizeDesc, ih]

theorem mem_insertBySizeDesc {a f : FileInfo} {l : List FileInfo} :
    a ∈ insertBySizeDesc f l ↔ a = f ∨ a ∈ l := by
  induction l with
  | nil => simp [insertBySizeDesc]
  | cons g rest ih =>
      by_cases h : g.size < f.size
      · simp [insertBySizeDesc, h]
      · simp [insertBySizeDesc, h, ih]
        tauto

theorem mem_sortBySizeDesc {a : FileInfo} {l : List FileInfo} :
    a ∈ sortBySizeDesc l ↔ a ∈ l := by
  induction l with
  | nil => simp [sortBySizeDesc]
  | cons f rest ih =>
      show a ∈ insertBySizeDesc f (sortBySizeDesc rest) ↔ _
      rw [mem_insertBySizeDesc, ih]
      simp [eq_comm]

theorem buildDirFold_spec (files : List (String × Nat)) (a : BuildAnalysis) :
    (files.foldl buildDirStep a).totalSize = a.totalSize + (files.map Prod.snd).sum
    ∧ (files.foldl buildDirStep a).fileCount = a.fileCount + files.length
    ∧ (files.foldl buildDirStep a).jsFiles.length
        + (files.foldl buildDirStep a).cssFiles.length
        + (files.foldl buildDirStep a).assetFiles.length
      = a.jsFiles.length + a.cssFiles.length + a.assetFiles.length + files.length := by
  induction files generalizing a with
  | nil => simp
  | cons f rest ih =>
      obtain ⟨h1, h2, h3⟩ := ih (buildDirStep a f)
      refine ⟨?_, ?_, ?_⟩
      · rw [List.foldl_cons, h1]
        simp [buildDirStep]
        omega
      · rw [List.foldl_cons, h2]
        simp [buildDirStep]
        omega
      · rw [List.foldl_cons, h3]
        by_cases hjs : (extnameStr f.1).toLower ∈ buildJsExtensions
        · simp [buildDirStep, hjs]
          omega
        · by_cases hcss : (extnameStr f.1).toLower ∈ buildCssExtensions
          · simp [buildDirStep, hjs, hcss]
            omega
          · simp [buildDirStep, hjs, hcss]
            omega

/-- C2: for every build directory analyzed, `totalSize` is the sum of the
sizes of all files discovered by the walk (each discovered file contributes
exactly once) and `fileCount` is their number; and the 2 MB single-script
build directory reports `totalSize = 2*1024*1024`, `fileCount = 1`, with that
file in the oversized list `largestFiles`. -/
theorem buildDirectory_totalSize_fileCount :
    (∀ files : List (String × Nat),
      (analyzeBuildFiles files).totalSize = (files.map Prod.snd).sum
      ∧ (analyzeBuildFiles files).fileCount = files.length)
    ∧ getAllBuildFiles "dist" distTwoMBTree = .ok [("dist/main.js", 2 * 1024 * 1024)]
    ∧ (analyzeBuildDirectory "dist" distTwoMBTree).map
        (fun a => (a.totalSize, a.fileCount, a.largestFiles))
      = .ok (2 * 1024 * 1024, 1, [⟨"dist/main.js", 2 * 1024 * 1024⟩]) := by
  refine ⟨fun files => ?_, rfl, rfl⟩
  obtain ⟨h1, h2, _⟩ := buildDirFold_spec files ⟨0, 0, [], [], [], []⟩
  constructor
  · rw [show (analyzeBuildFiles files).totalSize
        = (files.foldl buildDirStep ⟨0, 0, [], [], [], []⟩).totalSize from rfl, h1]
    simp
  · rw [show (analyzeBuildFiles files).fileCount
        = (files.foldl buildDirStep ⟨0, 0, [], [], [], []⟩).fileCount from rfl, h2]
    simp

/-- C9: every `BuildAnalysis` the analyzer produces classifies each discovered
file into exactly one of `jsFiles`, `cssFiles` and `assetFiles`, so the three
list lengths sum to `fileCount`. -/
theorem buildDirectory_partition :
    ∀ (d : String) (t : FSEntry) (a : BuildAnalysis),
      analyzeBuildDirectory d t = .ok a →
      a.jsFiles.length + a.cssFiles.length + a.assetFiles.length = a.fileCount := by
  intro d t a h
  unfold analyzeBuildDirectory at h
  cases hg : getAllBuildFiles d t with
  | error e => rw [hg] at h; simp [Except.map] at h
  | ok files =>
      rw [hg] at h
      simp only [Except.map] at h
      obtain rfl : analyzeBuildFiles files = a := by
        cases h; rfl
      obtain ⟨_, h2, h3⟩ := buildDirFold_spec files ⟨0, 0, [], [], [], []⟩
      show (sortBySizeDesc _).length + (sortBySizeDesc _).length + _ = _
      rw [length_sortBySizeDesc, length_sortBySizeDesc]
      rw [show (analyzeBuildFiles files).fileCount
        = (files.foldl buildDirStep ⟨0, 0, [], [], [], []⟩).fileCount from rfl, h2]
      simp [analyzeBuildFiles] at h3 ⊢
      omega

/-- C9 witness: the invariant on a mixed script/style/asset build directory. -/
theorem buildDirectory_partition_witness :
    analyzeBuildDirectory "build" buildMixTree = .ok buildMixAnalysis
    ∧ buildMixAnalysis.jsFiles.length + buildMixAnalysis.cssFiles.length
        + buildMixAnalysis.assetFiles.length = buildMixAnalysis.fileCount :=
  ⟨rfl, buildDirectory_partition "build" buildMixTree buildMixAnalysis rfl⟩

/-! ### Lemmas about the file walker -/

mutual
theorem findFilesEntry_isOk (exts : List String) (p : String) (e : FSEntry) :
    exceptIsOk (findFilesEntry exts p e) = walkOkEntry e := by
  cases e with
  | file n s ls => simp [findFilesEntry, walkOkEntry, exceptIsOk]
  | dir n r es =>
      by_cases hex : (!(strStartsWith n ".") && n != "node_modules") = true
      · cases r with
        | false => simp [findFilesEntry, walkOkEntry, hex, exceptIsOk]
        | true =>
            simp only [findFilesEntry, walkOkEntry, hex, if_true, Bool.true_and]
            exact findFilesList_isOk exts (p ++ n ++ "/") es
      · simp [findFilesEntry, walkOkEntry, hex, exceptIsOk]
theorem findFilesList_isOk (exts : List String) (p : String) (l : FSList) :
    exceptIsOk (findFilesList exts p l) = walkOkList l := by
  cases l with
  | nil => simp [findFilesList, walkOkList, exceptIsOk]
  | cons e rest =>
      have h1 := findFilesEntry_isOk exts p e
      have h2 := findFilesList_isOk exts p rest
      cases he : findFilesEntry exts p e with
      | error err =>
          rw [he] at h1
          simp [exceptIsOk] at h1
          simp [findFilesList, he, exceptIsOk, walkOkList, ← h1]
      | ok v =>
          rw [he] at h1
          simp [exceptIsOk] at h1
          cases hr : findFilesList exts p rest with
          | error err2 =>
              rw [hr] at h2
              simp [exceptIsOk] at h2
              simp [findFilesList, he, hr, exceptIsOk, walkOkList, ← h1, ← h2]
          | ok w =>
              rw [hr] at h2
              simp [exceptIsOk] at h2
              simp [findFilesList, he, hr, exceptIsOk, walkOkList, h1, h2]
end

theorem findFiles_isOk_eq (exts : List String) (root : FSEntry) :
    exceptIsOk (findFiles exts root) = rootWalkOk root := by
  cases root with
  | file n s ls => simp [findFiles, rootWalkOk, exceptIsOk]
  | dir n r es =>
      cases r with
      | false => simp [findFiles, rootWalkOk, exceptIsOk]
      | true =>
          simp only [findFiles, rootWalkOk, if_true, Bool.true_and]
          exact findFilesList_isOk exts "" es

/-- C6 (amended): `findFiles` contains no error handling, so the walk
succeeds exactly when every directory it visits (the root and every
non-hidden, non-`node_modules` descendant directory) is readable; an
unreadable subdirectory reached by the walk makes `readdirSync` throw, the
exception propagates out of the walker — no warning, no partial file list —
and only the top-level `analyze` handler stops it. -/
theorem findFiles_aborts_on_unreadable :
    ∀ (exts : List String) (root : FSEntry),
      exceptIsOk (findFiles exts root) = rootWalkOk root :=
  fun exts root => findFiles_isOk_eq exts root

/-- C6 counterexample: a readable root with one matching file and one
unreadable subdirectory.  The claim expects the file from the readable part
with a recorded warning; instead the whole walk returns the thrown error. -/
theorem findFiles_aborts_counterexample :
    findFiles [".js"] unreadableSubdirTree = .error "EACCES"
    ∧ rootWalkOk unreadableSubdirTree = false := ⟨rfl, rfl⟩

/-! ### Claims about manifest error handling and the CLI -/

/-- C3 (amended): an absent manifest yields the `"unknown"` classification
without raising, and the run continues (completing fully when the source tree
is walkable); a malformed manifest, however, makes `JSON.parse` raise inside
`detectProjectType`: the exception escapes it, aborts every remaining phase of
the analysis run (dependency and code analysis never run), and is caught only
by the top-level `analyze` handler, which logs it instead of crashing. -/
theorem detectProjectType_error_handling :
    detectProjectType .absent = .ok "unknown"
    ∧ (∀ inp : ProjectInput, inp.manifest = .malformed →
        exceptIsOk (detectProjectType inp.manifest) = false
        ∧ (perfAnalyze inp).2.isSome = true
        ∧ (perfAnalyze inp).1.dependencyAnalysis = none
        ∧ (perfAnalyze inp).1.codeAnalysis = none)
    ∧ (∀ inp : ProjectInput, inp.manifest = .absent →
        (perfAnalyze inp).1.projectType = some "unknown"
        ∧ (rootWalkOk inp.srcRoot = true → (perfAnalyze inp).2 = none)) := by
  refine ⟨rfl, ?_, ?_⟩
  · intro inp h
    obtain ⟨mf, cf, bd, sr, fc⟩ := inp
    have h' : mf = ManifestFile.malformed := h
    subst h'
    exact ⟨rfl, rfl, rfl, rfl⟩
  · intro inp h
    obtain ⟨mf, cf, bd, sr, fc⟩ := inp
    have h' : mf = ManifestFile.absent := h
    subst h'
    constructor
    · cases hf : findFiles codeFileExtensions sr with
      | error e =>
          simp [perfAnalyze, hf, detectProjectType, analyzeDependenciesPhase]
      | ok files =>
          simp [perfAnalyze, hf, detectProjectType, analyzeDependenciesPhase,
            analyzeBundleSizePhase, getBuildScripts]
    · intro hwalk
      have hok := findFiles_isOk_eq codeFileExtensions sr
      rw [hwalk] at hok
      cases hf : findFiles codeFileExtensions sr with
      | error e => rw [hf] at hok; simp [exceptIsOk] at hok
      | ok files =>
          simp [perfAnalyze, hf, detectProjectType, analyzeDependenciesPhase,
            analyzeBundleSizePhase, getBuildScripts]

/-- C3 witness: the absent-manifest half of the theorem at a concrete project
with no manifest and an empty readable source tree. -/
theorem detectProjectType_error_handling_witness :
    (perfAnalyze absentManifestInput).1.projectType = some "unknown"
    ∧ (perfAnalyze absentManifestInput).2 = none := by
  have h := detectProjectType_error_handling.2.2 absentManifestInput rfl
  exact ⟨h.1, h.2 rfl⟩

/-- C3 counterexample: on a malformed manifest `detectProjectType` does not
return `"unknown"` — it propagates the `JSON.parse` exception, and the rest of
the analysis run is aborted (`projectType`, `dependencyAnalysis` and
`codeAnalysis` all remain unset while the caught error is recorded). -/
theorem detectProjectType_error_counterexample :
    detectProjectType .malformed = .error "Unexpected token in JSON"
    ∧ (perfAnalyze malformedManifestInput).1.projectType = none
    ∧ (perfAnalyze malformedManifestInput).1.dependencyAnalysis = none
    ∧ (perfAnalyze malformedManifestInput).1.codeAnalysis = none
    ∧ (perfAnalyze malformedManifestInput).2 = some "Unexpected token in JSON" :=
  ⟨rfl, rfl, rfl, rfl, rfl⟩

/-- C4 (amended): the CLI exits 0 when `runComplete` resolves and 1 when it
rejects; but every error raised during performance or bundle analysis —
including a totally unreadable manifest — is caught inside the respective
analyzer's own `try`, so `runComplete` always resolves and the process exits
0 for every modeled input. -/
theorem cli_exit_code_always_zero :
    ∀ (args : List String) (inp : ProjectInput),
      exceptIsOk (runComplete (parseArgs args) inp) = true
      ∧ cliExitCode args inp = 0 := by
  intro args inp
  exact ⟨rfl, rfl⟩

/-- C4 counterexample: with a malformed (totally unreadable) manifest the
parse error is caught inside `PerformanceAnalyzer.analyze` — recorded there,
never reaching `runComplete`'s promise chain — and the CLI exits 0, not
non-zero as the claim requires. -/
theorem cli_exit_nonzero_counterexample :
    cliExitCode [] malformedManifestInput = 0
    ∧ (perfAnalyze malformedManifestInput).2.isSome = true := ⟨rfl, rfl⟩

/-! ### Lemmas about the code-pattern scanner -/

theorem scanLinesGo_spec (file : String) (lines : List String) (idx : Nat)
    (pat : CodePatterns) :
    (scanLinesGo file idx pat lines).consoleStatements
      = pat.consoleStatements
        + (lines.filter (fun l => strContains l "console.")).length
    ∧ (scanLinesGo file idx pat lines).inlineStyles
      = pat.inlineStyles
        + (lines.filter (fun l =>
            strContains l "style=\x7b\x7b" || strContains l "style=\"\x7b")).length
    ∧ (scanLinesGo file idx pat lines).inefficientPatterns
      = pat.inefficientPatterns
        ++ ((List.enumFrom idx lines).filter (fun il =>
              strContains il.2 "document.querySelector"
                || strContains il.2 "getElementById")).map
            (fun il => (⟨file, il.1 + 1, "DOM manipulation in component"⟩ : CodeIssue))
    ∧ (scanLinesGo file idx pat lines).largeFiles = pat.largeFiles := by
  induction lines generalizing idx pat with
  | nil => simp [scanLinesGo]
  | cons l rest ih =>
      obtain ⟨h1, h2, h3, h4⟩ := ih (idx + 1) (scanLineStep file pat idx l)
      refine ⟨?_, ?_, ?_, ?_⟩
      · show (scanLinesGo file (idx + 1) (scanLineStep file pat idx l) rest).consoleStatements = _
        rw [h1]
        by_cases hc : strContains l "console." = true
        · simp [scanLineStep, hc]
          omega
        · simp only [Bool.not_eq_true] at hc
          simp [scanLineStep, hc]
      · show (scanLinesGo file (idx + 1) (scanLineStep file pat idx l) rest).inlineStyles = _
        rw [h2]
        by_cases hc : (strContains l "style=\x7b\x7b" || strContains l "style=\"\x7b") = true
        · simp [scanLineStep, hc]
          omega
        · simp only [Bool.not_eq_true] at hc
          simp [scanLineStep, hc]
      · show (scanLinesGo file (idx + 1) (scanLineStep file pat idx l) rest).inefficientPatterns = _
        rw [h3]
        by_cases hc : (strContains l "document.querySelector"
            || strContains l "getElementById") = true
        · simp [scanLineStep, hc, List.enumFrom]
        · simp only [Bool.not_eq_true] at hc
          simp [scanLineStep, hc, List.enumFrom]
      · show (scanLinesGo file (idx + 1) (scanLineStep file pat idx l) rest).largeFiles = _
        rw [h4]
        simp [scanLineStep]

theorem analyzeCodePatterns_fold (files : List SrcFile) (pat : CodePatterns) :
    (files.foldl scanFile pat).consoleStatements
      = pat.consoleStatements
        + (files.map (fun f =>
            (f.lines.filter (fun l => strContains l "console.")).length)).sum
    ∧ (files.foldl scanFile pat).inefficientPatterns
      = pat.inefficientPatterns
        ++ (files.map (fun f =>
            ((f.lines.enum.filter (fun il =>
                strContains il.2 "document.querySelector"
                  || strContains il.2 "getElementById")).map
              (fun il => (⟨f.path, il.1 + 1,
                "DOM manipulation in component"⟩ : CodeIssue))))).flatten := by
  induction files generalizing pat with
  | nil => simp
  | cons f rest ih =>
      obtain ⟨g1, g2⟩ := ih (scanFile pat f)
      have hpat : (if 100000 < f.size then
          { pat with largeFiles := pat.largeFiles ++ [(f.path, roundDiv f.size 1024)] }
          else pat).consoleStatements = pat.consoleStatements
          ∧ (if 100000 < f.size then
          { pat with largeFiles := pat.largeFiles ++ [(f.path, roundDiv f.size 1024)] }
          else pat).inefficientPatterns = pat.inefficientPatterns := by
        by_cases hs : 100000 < f.size <;> simp [hs]
      obtain ⟨s1, _, s3, _⟩ := scanLinesGo_spec f.path f.lines 0
        (if 100000 < f.size then
          { pat with largeFiles := pat.largeFiles ++ [(f.path, roundDiv f.size 1024)] }
          else pat)
      constructor
      · rw [List.foldl_cons, g1]
        show (scanFile pat f).consoleStatements + _ = _
        rw [show scanFile pat f = scanLinesGo f.path 0 _ f.lines from rfl, s1, hpat.1]
        simp [List.enum]
        omega
      · rw [List.foldl_cons, g2]
        show (scanFile pat f).inefficientPatterns ++ _ = _
        rw [show scanFile pat f = scanLinesGo f.path 0 _ f.lines from rfl, s3, hpat.2]
        simp [List.enum]

/-- C5 (amended): the scanner tallies debug-print lines in the bare counter
`consoleStatements` — one increment per line containing `console.`, with no
per-occurrence CodeIssue entries and no line numbers; likewise inline styles
are only counted.  Only the DOM-query anti-pattern produces per-line
`CodeIssue` entries carrying 1-based line numbers.  A file with
`console.log("x")` on two different lines therefore yields
`consoleStatements = 2` and no debug-print issue entries. -/
theorem codePatterns_console_counter :
    (∀ files : List SrcFile,
      (analyzeCodePatterns files).consoleStatements
        = (files.map (fun f =>
            (f.lines.filter (fun l => strContains l "console.")).length)).sum
      ∧ (analyzeCodePatterns files).inefficientPatterns
        = (files.map (fun f =>
            ((f.lines.enum.filter (fun il =>
                strContains il.2 "document.querySelector"
                  || strContains il.2 "getElementById")).map
              (fun il => (⟨f.path, il.1 + 1,
                "DOM manipulation in component"⟩ : CodeIssue))))).flatten)
    ∧ (analyzeCodePatterns [twoConsoleFile]).consoleStatements = 2
    ∧ (analyzeCodePatterns [twoConsoleFile]).inefficientPatterns = [] := by
  refine ⟨fun files => ?_, rfl, rfl⟩
  obtain ⟨h1, h2⟩ := analyzeCodePatterns_fold files ⟨[], [], 0, 0⟩
  exact ⟨by simpa [analyzeCodePatterns] using h1, by simpa [analyzeCodePatterns] using h2⟩

/-- C5 counterexample: for the file containing `console.log("x")` on two
lines, the scanner's entire output holds no debug-print `CodeIssue` entry at
all — its only issue-entry list, `inefficientPatterns`, is empty, and the
large-file list is empty too — only the unattributed counter reaches 2.  The
claimed two per-line debug-print CodeIssue entries do not exist. -/
theorem codePatterns_console_counterexample :
    (analyzeCodePatterns [twoConsoleFile]).consoleStatements = 2
    ∧ (analyzeCodePatterns [twoConsoleFile]).inefficientPatterns = []
    ∧ (analyzeCodePatterns [twoConsoleFile]).largeFiles = []
    ∧ (analyzeCodePatterns [twoConsoleFile]).inlineStyles = 0 :=
  ⟨rfl, rfl, rfl, rfl⟩

/-! ### Lemmas about the chunking analyzer -/

theorem chunkCollect_fold (l : List FileInfo) (st : ChunkAnalysis) :
    (l.foldl chunkCollectStep st).chunkFiles
      = st.chunkFiles ++ l.filter (fun f => isChunkFilename (basenameStr f.path))
    ∧ (l.foldl chunkCollectStep st).recommendations = st.recommendations := by
  induction l generalizing st with
  | nil => simp
  | cons f rest ih =>
      obtain ⟨h1, h2⟩ := ih (chunkCollectStep st f)
      by_cases hc : isChunkFilename (basenameStr f.path) = true
      · constructor
        · rw [List.foldl_cons, h1]
          simp [chunkCollectStep, hc]
        · rw [List.foldl_cons, h2]
          simp [chunkCollectStep, hc]
      · simp only [Bool.not_eq_true] at hc
        constructor
        · rw [List.foldl_cons, h1]
          simp [chunkCollectStep, hc]
        · rw [List.foldl_cons, h2]
          simp [chunkCollectStep, hc]

theorem chunkCollect_builds (builds : List BuildAnalysis) (st : ChunkAnalysis) :
    (builds.foldl (fun st b => b.jsFiles.foldl chunkCollectStep st) st).chunkFiles
      = st.chunkFiles
        ++ (allJsFiles builds).filter (fun f => isChunkFilename (basenameStr f.path))
    ∧ (builds.foldl (fun st b => b.jsFiles.foldl chunkCollectStep st) st).recommendations
      = st.recommendations := by
  induction builds generalizing st with
  | nil => simp [allJsFiles]
  | cons b t ih =>
      obtain ⟨i1, i2⟩ := chunkCollect_fold b.jsFiles st
      obtain ⟨h1, h2⟩ := ih (b.jsFiles.foldl chunkCollectStep st)
      constructor
      · rw [List.foldl_cons, h1, i1]
        simp [allJsFiles, List.filter_append]
      · rw [List.foldl_cons, h2, i2]

theorem chunkRecs_builds (cond : FileInfo → Bool) (builds : List BuildAnalysis)
    (acc : List ChunkRec) :
    builds.foldl (fun acc b =>
        b.jsFiles.foldl (fun acc f =>
          if cond f then acc ++ [(⟨f.path, f.size⟩ : ChunkRec)] else acc) acc) acc
      = acc ++ ((allJsFiles builds).filter cond).map
          (fun f => (⟨f.path, f.size⟩ : ChunkRec)) := by
  induction builds generalizing acc with
  | nil => simp [allJsFiles]
  | cons b t ih =>
      rw [List.foldl_cons, foldl_pushIf_map cond (fun f => (⟨f.path, f.size⟩ : ChunkRec))
        b.jsFiles acc, ih]
      simp [allJsFiles, List.filter_append]

theorem analyzeChunking_spec (builds : List BuildAnalysis) :
    (analyzeChunking builds).chunkFiles
      = (allJsFiles builds).filter (fun f => isChunkFilename (basenameStr f.path))
    ∧ (analyzeChunking builds).recommendations
      = ((allJsFiles builds).filter (fun f =>
          500000 < f.size && !(((allJsFiles builds).filter
            (fun g => isChunkFilename (basenameStr g.path))).any
              (fun c => c.path == f.path)))).map
          (fun f => (⟨f.path, f.size⟩ : ChunkRec)) := by
  obtain ⟨h1, _⟩ := chunkCollect_builds builds ⟨false, [], [], []⟩
  constructor
  · simp only [analyzeChunking]
    rw [h1]
    simp
  · simp only [analyzeChunking]
    rw [h1]
    simp only [List.nil_append]
    exact chunkRecs_builds _ builds []

theorem filter_path_eq {l : List FileInfo} {f : FileInfo} (hf : f ∈ l)
    (hp : l.Pairwise (fun a b => a.path ≠ b.path)) :
    l.filter (fun g => g.path == f.path) = [f] := by
  induction l with
  | nil => simp at hf
  | cons x t ih =>
      rw [List.pairwise_cons] at hp
      rcases List.mem_cons.mp hf with rfl | hf'
      · have ht : t.filter (fun g => g.path == f.path) = [] := by
          rw [List.filter_eq_nil_iff]
          intro a ha
          simp only [beq_iff_eq]
          exact fun hEq => (hp.1 a ha) hEq.symm
        simp [List.filter_cons, ht]
      · have hx : (x.path == f.path) = false := by
          simp only [beq_eq_false_iff_ne, ne_eq]
          exact hp.1 f hf'
        rw [List.filter_cons]
        simp only [hx, Bool.false_eq_true, if_false]
        exact ih hf' hp.2

/-- C8 (amended): among the script files discovered in build output (with
pairwise-distinct paths), a file is collected as a chunk exactly when its
basename contains one of the literal substrings `chunk`, `vendor` or
`common`, or matches the regex `\.[a-f0-9]{8,}\.js$` — a dot-separated run of
at least 8 lower-case hex digits immediately before a literal `.js` ending
(not before an arbitrary extension); and every script file larger than
500 000 bytes that is not so classified produces exactly one code-splitting
recommendation. -/
theorem chunk_classification :
    ∀ (builds : List BuildAnalysis) (f : FileInfo),
      f ∈ allJsFiles builds →
      (allJsFiles builds).Pairwise (fun a b => a.path ≠ b.path) →
      (f ∈ (analyzeChunking builds).chunkFiles
          ↔ isChunkFilename (basenameStr f.path) = true)
      ∧ ((analyzeChunking builds).recommendations.filter
            (fun r => r.file == f.path)).length
        = if 500000 < f.size ∧ isChunkFilename (basenameStr f.path) = false
          then 1 else 0 := by
  intro builds f hmem hp
  obtain ⟨hc, hr⟩ := analyzeChunking_spec builds
  constructor
  · rw [hc]
    constructor
    · intro h
      exact (List.mem_filter.mp h).2
    · intro h
      exact List.mem_filter.mpr ⟨hmem, h⟩
  · rw [hr]
    have hsymm : Symmetric (fun a b : FileInfo => a.path ≠ b.path) :=
      fun a b h => h.symm
    have hany : (((allJsFiles builds).filter
        (fun g => isChunkFilename (basenameStr g.path))).any
          (fun c => c.path == f.path))
        = isChunkFilename (basenameStr f.path) := by
      by_cases ht : isChunkFilename (basenameStr f.path) = true
      · rw [ht]
        exact List.any_eq_true.mpr ⟨f, List.mem_filter.mpr ⟨hmem, ht⟩, by simp⟩
      · simp only [Bool.not_eq_true] at ht
        rw [ht]
        rw [List.any_eq_false]
        intro c hcmem
        obtain ⟨hcall, hctest⟩ := List.mem_filter.mp hcmem
        have hne : c ≠ f := by
          intro hEq
          rw [hEq, ht] at hctest
          exact Bool.false_ne_true hctest
        have hpath := hp.forall hsymm hcall hmem hne
        simp only [beq_iff_eq]
        exact fun hEq => hpath hEq
    rw [List.filter_map, List.length_map, List.filter_filter]
    have hpred : ∀ a : FileInfo,
        ((fun r : ChunkRec => r.file == f.path) ∘ (fun f => (⟨f.path, f.size⟩ : ChunkRec))) a
          = (a.path == f.path) := fun a => rfl
    have hco : (fun a : FileInfo =>
          ((fun r : ChunkRec => r.file == f.path) ∘
            (fun f => (⟨f.path, f.size⟩ : ChunkRec))) a
          && (decide (500000 < a.size) && !(((allJsFiles builds).filter
            (fun g => isChunkFilename (basenameStr g.path))).any
              (fun c => c.path == a.path))))
        = (fun a : FileInfo => (decide (500000 < a.size) && !(((allJsFiles builds).filter
            (fun g => isChunkFilename (basenameStr g.path))).any
              (fun c => c.path == a.path))) && (a.path == f.path)) := by
      funext a
      rw [hpred a, Bool.and_comm]
    rw [hco, ← List.filter_filter, filter_path_eq hmem hp]
    by_cases hs : 500000 < f.size
    · by_cases ht : isChunkFilename (basenameStr f.path) = true
      · simp [List.filter, hany, hs, ht]
      · simp only [Bool.not_eq_true] at ht
        simp [List.filter, hany, hs, ht]
    · simp [List.filter, hany, hs]

/-- C8 witness: the theorem at a single build holding one 600 KB script
`dist/big.js`, which is not a chunk and yields exactly one recommendation. -/
theorem chunk_classification_witness :
    ((⟨"dist/big.js", 600000⟩ : FileInfo) ∈ allJsFiles [bigJsBuild]
      ∧ (allJsFiles [bigJsBuild]).Pairwise (fun a b => a.path ≠ b.path))
    ∧ (((⟨"dist/big.js", 600000⟩ : FileInfo) ∈ (analyzeChunking [bigJsBuild]).chunkFiles
          ↔ isChunkFilename (basenameStr (FileInfo.path ⟨"dist/big.js", 600000⟩)) = true)
        ∧ ((analyzeChunking [bigJsBuild]).recommendations.filter
            (fun r => r.file == FileInfo.path ⟨"dist/big.js", 600000⟩)).length
          = if 500000 < FileInfo.size (⟨"dist/big.js", 600000⟩ : FileInfo)
              ∧ isChunkFilename (basenameStr (FileInfo.path ⟨"dist/big.js", 600000⟩)) = false
            then 1 else 0) := by
  have h1 : (⟨"dist/big.js", 600000⟩ : FileInfo) ∈ allJsFiles [bigJsBuild] := by decide
  have h2 : (allJsFiles [bigJsBuild]).Pairwise (fun a b => a.path ≠ b.path) := by
    simp [allJsFiles, bigJsBuild]
  exact ⟨⟨h1, h2⟩, chunk_classification [bigJsBuild] ⟨"dist/big.js", 600000⟩ h1 h2⟩

/-- C8 counterexample: `app.abcdef0123.mjs` is a discovered script file whose
name ends with a dot-separated hexadecimal segment of at least 8 characters
immediately before its extension — so the claim classifies it as a chunk —
but the source regex demands a literal `.js` ending, so `analyzeChunking`
does not classify it as a chunk. -/
theorem chunk_classification_counterexample :
    specChunkNaming (basenameStr "dist/app.abcdef0123.mjs") = true
    ∧ (basenameStr "dist/app.abcdef0123.mjs", extnameStr "dist/app.abcdef0123.mjs")
        = ("app.abcdef0123.mjs", ".mjs")
    ∧ (analyzeChunking [mjsHashBuild]).chunkFiles = []
    ∧ (analyzeChunking [mjsHashBuild]).hasCodeSplitting = false :=
  ⟨rfl, rfl, rfl, rfl⟩
